import Mathlib

/-!
Verification of the KitchenSage streaming task-progress pipeline.

This file shallowly embeds the two components of the pipeline that carry the
protocol-design stakes:

* the stream consumer of `frontend/src/services/api.ts`
  (`mealPlanApi.streamCreate`): a buffered line splitter over arbitrarily
  fragmented chunks, with `data: `-framed JSON records;
* the progress reducer and content sanitizer of
  `frontend/src/components/AgentActivityPanel.tsx` (`processStream`,
  `sanitizeContent`, `addToLog`, `incrementProgress`).

Strings are modelled as `List Char` (written `Str`), which matches the
character-level behaviour of the JavaScript string operations used by the
source (`includes`, `replace`, `trim`, `slice`, `split`, `startsWith`) and
keeps every definition structural, hence computable by `decide`.
-/

/-- JavaScript strings, modelled as character lists. -/
abbrev Str := List Char

/-- Whitespace class of the JavaScript regexp `\s` (the ASCII part, which is
all the source ever feeds it): space, tab, line feed, carriage return,
vertical tab, form feed. -/
def jsWs (c : Char) : Bool :=
  c = ' ' || c = '\t' || c = '\n' || c = '\r' || c = '\x0b' || c = '\x0c'

/-- `leadsWith pat s` holds when `pat` begins `s` (JS `String.startsWith`). -/
def leadsWith : Str → Str → Bool
  | [], _ => true
  | _ :: _, [] => false
  | p :: ps, c :: cs => p == c && leadsWith ps cs

/-- JS `String.includes`: `sub` occurs contiguously somewhere in `s`. -/
def jsIncludes (s sub : Str) : Bool :=
  leadsWith sub s ||
    match s with
    | [] => false
    | _ :: tl => jsIncludes tl sub

/-- Global replacement of the two-character pattern `[a, b]` by `rep`
(JS `String.replace` with a global regexp matching the literal pair),
scanning left to right and resuming after each replacement. -/
def replacePair (a b : Char) (rep : Str) : Str → Str
  | [] => []
  | [c] => [c]
  | c :: d :: rest =>
    if c = a && d = b then rep ++ replacePair a b rep rest
    else c :: replacePair a b rep (d :: rest)

/-- Global replacement of the single character `a` by `rep`
(JS `String.replace` with a global one-character regexp). -/
def replaceChar (a : Char) (rep : Str) : Str → Str
  | [] => []
  | c :: cs => if c = a then rep ++ replaceChar a rep cs else c :: replaceChar a rep cs

/-- JS `String.replace(/\s+/g, ' ')`: every maximal whitespace run becomes a
single space. -/
def collapseWs : Str → Str
  | [] => []
  | c :: cs =>
    if jsWs c then
      match cs with
      | [] => [' ']
      | d :: rest =>
        if jsWs d then collapseWs (d :: rest) else ' ' :: collapseWs (d :: rest)
    else c :: collapseWs cs

/-- JS `String.trim`: strip leading and trailing whitespace. -/
def trimL (s : Str) : Str :=
  ((s.dropWhile jsWs).reverse.dropWhile jsWs).reverse

example : jsIncludes "hello world".data "lo wo".data = true := by decide
example : jsIncludes "hello".data "z".data = false := by decide
example : replacePair '\\' 'n' [' '] "a\\nb".data = "a b".data := by decide
example : collapseWs "a  b\t c".data = "a b c".data := by decide
example : trimL "  ab  ".data = "ab".data := by decide

/-- Whitespace accepted between tokens by the JSON grammar. -/
def jsonWs (c : Char) : Bool :=
  c = ' ' || c = '\t' || c = '\n' || c = '\r'

/-- JSON values as produced by the JavaScript builtin `JSON.parse`.
Numbers keep their source lexeme (no claim inspects numeric values). -/
inductive JsVal where
  | jnull
  | jbool (b : Bool)
  | jnum (raw : Str)
  | jstr (s : Str)
  | jarr (elems : List JsVal)
  | jobj (fields : List (Str × JsVal))

/-- Value of a hexadecimal digit. -/
def hexVal (c : Char) : Option Nat :=
  if '0' ≤ c ∧ c ≤ '9' then some (c.toNat - '0'.toNat)
  else if 'a' ≤ c ∧ c ≤ 'f' then some (c.toNat - 'a'.toNat + 10)
  else if 'A' ≤ c ∧ c ≤ 'F' then some (c.toNat - 'A'.toNat + 10)
  else none

/-- One-character JSON string escapes. -/
def escChar (c : Char) : Option Char :=
  if c = '"' then some '"'
  else if c = '\\' then some '\\'
  else if c = '/' then some '/'
  else if c = 'b' then some '\x08'
  else if c = 'f' then some '\x0c'
  else if c = 'n' then some '\n'
  else if c = 'r' then some '\r'
  else if c = 't' then some '\t'
  else none

/-- Parse the body of a JSON string after its opening quote, returning the
decoded content and the rest after the closing quote. Fuel-indexed so the
definition is structural. -/
def parseStrBody : Nat → Str → Option (Str × Str)
  | 0, _ => none
  | _ + 1, [] => none
  | fuel + 1, c :: cs =>
    if c = '"' then some ([], cs)
    else if c = '\\' then
      match cs with
      | [] => none
      | e :: cs2 =>
        if e = 'u' then
          match cs2 with
          | h1 :: h2 :: h3 :: h4 :: cs3 =>
            match hexVal h1, hexVal h2, hexVal h3, hexVal h4 with
            | some v1, some v2, some v3, some v4 =>
              (parseStrBody fuel cs3).map
                (fun r => (Char.ofNat (((v1 * 16 + v2) * 16 + v3) * 16 + v4) :: r.1, r.2))
            | _, _, _, _ => none
          | _ => none
        else
          match escChar e with
          | some ec => (parseStrBody fuel cs2).map (fun r => (ec :: r.1, r.2))
          | none => none
    else if c.toNat < 0x20 then none
    else (parseStrBody fuel cs).map (fun r => (c :: r.1, r.2))

/-- Decimal digit test. -/
def digit (c : Char) : Bool := '0' ≤ c && c ≤ '9'

/-- Lex a JSON number at the head of `s` (sign, integer part, optional
fraction, optional exponent), returning the lexeme and the rest. -/
def lexNumber (s : Str) : Option (Str × Str) :=
  let sign : Str × Str :=
    match s with
    | '-' :: rest => (['-'], rest)
    | _ => ([], s)
  match sign.2 with
  | [] => none
  | c :: rest =>
    if ¬ digit c then none
    else
      let intPart : Str × Str :=
        if c = '0' then ([c], rest)
        else (c :: rest.takeWhile digit, rest.dropWhile digit)
      let fracPart : Str × Str :=
        match intPart.2 with
        | '.' :: d :: ds =>
          if digit d then ('.' :: d :: ds.takeWhile digit, ds.dropWhile digit)
          else ([], intPart.2)
        | _ => ([], intPart.2)
      let expPart : Str × Str :=
        match fracPart.2 with
        | e :: rest2 =>
          if e = 'e' || e = 'E' then
            match rest2 with
            | s2 :: rest3 =>
              if s2 = '+' || s2 = '-' then
                match rest3 with
                | d :: _ =>
                  if digit d then (e :: s2 :: rest3.takeWhile digit, rest3.dropWhile digit)
                  else ([], fracPart.2)
                | [] => ([], fracPart.2)
              else if digit s2 then (e :: rest2.takeWhile digit, rest2.dropWhile digit)
              else ([], fracPart.2)
            | [] => ([], fracPart.2)
          else ([], fracPart.2)
        | [] => ([], fracPart.2)
      some (sign.1 ++ intPart.1 ++ fracPart.1 ++ expPart.1, expPart.2)

mutual

/-- Parse one JSON value, fuel-indexed; returns the value and unconsumed rest. -/
def parseVal : Nat → Str → Option (JsVal × Str)
  | 0, _ => none
  | fuel + 1, s0 =>
    let s := s0.dropWhile jsonWs
    match s with
    | [] => none
    | c :: rest =>
      if c = '"' then
        (parseStrBody (rest.length + 1) rest).map (fun r => (JsVal.jstr r.1, r.2))
      else if c = '[' then parseArrItems fuel rest
      else if c = '\x7b' then parseObjItems fuel rest
      else if leadsWith "true".data s then some (JsVal.jbool true, s.drop 4)
      else if leadsWith "false".data s then some (JsVal.jbool false, s.drop 5)
      else if leadsWith "null".data s then some (JsVal.jnull, s.drop 4)
      else (lexNumber s).map (fun r => (JsVal.jnum r.1, r.2))

/-- Parse array elements after `[`. -/
def parseArrItems : Nat → Str → Option (JsVal × Str)
  | 0, _ => none
  | fuel + 1, s0 =>
    let s := s0.dropWhile jsonWs
    match s with
    | ']' :: rest => some (JsVal.jarr [], rest)
    | _ =>
      match parseVal fuel s with
      | none => none
      | some (v, r) => parseArrRest fuel [v] r

/-- Parse `, value`* `]` continuing an array. -/
def parseArrRest : Nat → List JsVal → Str → Option (JsVal × Str)
  | 0, _, _ => none
  | fuel + 1, acc, s0 =>
    let s := s0.dropWhile jsonWs
    match s with
    | ']' :: rest => some (JsVal.jarr acc.reverse, rest)
    | ',' :: rest =>
      match parseVal fuel rest with
      | none => none
      | some (v, r) => parseArrRest fuel (v :: acc) r
    | _ => none

/-- Parse object members after the opening brace. -/
def parseObjItems : Nat → Str → Option (JsVal × Str)
  | 0, _ => none
  | fuel + 1, s0 =>
    let s := s0.dropWhile jsonWs
    match s with
    | '\x7d' :: rest => some (JsVal.jobj [], rest)
    | _ =>
      match parseField fuel s with
      | none => none
      | some (f, r) => parseObjRest fuel [f] r

/-- Parse one `"key": value` member. -/
def parseField : Nat → Str → Option ((Str × JsVal) × Str)
  | 0, _ => none
  | fuel + 1, s0 =>
    let s := s0.dropWhile jsonWs
    match s with
    | '"' :: rest =>
      match parseStrBody (rest.length + 1) rest with
      | none => none
      | some (key, r1) =>
        match r1.dropWhile jsonWs with
        | ':' :: r2 =>
          match parseVal fuel r2 with
          | none => none
          | some (v, r3) => some ((key, v), r3)
        | _ => none
    | _ => none

/-- Parse `, member`* and the closing brace continuing an object. -/
def parseObjRest : Nat → List (Str × JsVal) → Str → Option (JsVal × Str)
  | 0, _, _ => none
  | fuel + 1, acc, s0 =>
    let s := s0.dropWhile jsonWs
    match s with
    | '\x7d' :: rest => some (JsVal.jobj acc.reverse, rest)
    | ',' :: rest =>
      match parseField fuel rest with
      | none => none
      | some (f, r) => parseObjRest fuel (f :: acc) r
    | _ => none

end

/-- Model of the JavaScript builtin `JSON.parse` on character lists: parse one
value, allow trailing whitespace only; `none` models a thrown `SyntaxError`.
The fuel `2 * length + 2` dominates the recursion depth, since every two
nested calls consume at least one character. -/
def jsonParse (s : Str) : Option JsVal :=
  match parseVal (2 * s.length + 2) s with
  | some (v, rest) => if (rest.dropWhile jsonWs).isEmpty then some v else none
  | none => none

example : jsonParse "true".data = some (JsVal.jbool true) := rfl
example : jsonParse "null".data = some JsVal.jnull := rfl
example : jsonParse "\x7b".data = none := rfl
example : jsonParse " [1, \"a\\n\", \x7b\x7d] ".data =
    some (JsVal.jarr [JsVal.jnum ['1'], JsVal.jstr "a\n".data, JsVal.jobj []]) := rfl
example : jsonParse "\x7b\"status\": \"error\", \"message\": \"boom\"\x7d".data =
    some (JsVal.jobj [("status".data, JsVal.jstr "error".data),
                      ("message".data, JsVal.jstr "boom".data)]) := rfl
example : jsonParse "truex".data = none := rfl

/-- Truthiness of a `JSON.parse` result, as JavaScript evaluates it in
`parsed.message || parsed.status || 'Completed'`: `null`, `false`, zero
numbers and the empty string are falsy; arrays and objects are truthy. -/
def truthy : JsVal → Bool
  | JsVal.jnull => false
  | JsVal.jbool b => b
  | JsVal.jnum raw =>
    !((raw.takeWhile (fun c => c ≠ 'e' && c ≠ 'E')).all
        (fun c => c = '0' || c = '-' || c = '.'))
  | JsVal.jstr s => !s.isEmpty
  | JsVal.jarr _ => true
  | JsVal.jobj _ => true

mutual

/-- JavaScript string coercion `String(v)` of a `JSON.parse` result, as the
component's string-typed return would render it: strings are themselves,
numbers their lexeme, arrays comma-join their coerced elements with `null`
rendered empty, plain objects coerce to `[object Object]`. -/
def jsToDisplay : JsVal → Str
  | JsVal.jstr s => s
  | JsVal.jnum raw => raw
  | JsVal.jbool true => "true".data
  | JsVal.jbool false => "false".data
  | JsVal.jnull => "null".data
  | JsVal.jarr xs => jsArrDisplay xs
  | JsVal.jobj _ => "[object Object]".data

/-- Comma join used by JavaScript `Array.prototype.toString`. -/
def jsArrDisplay : List JsVal → Str
  | [] => []
  | [JsVal.jnull] => []
  | [x] => jsToDisplay x
  | JsVal.jnull :: xs => ',' :: jsArrDisplay xs
  | x :: xs => jsToDisplay x ++ ',' :: jsArrDisplay xs

end

/-- Property lookup on a parsed JSON object; with duplicate keys `JSON.parse`
keeps the last occurrence. -/
def objGet (fields : List (Str × JsVal)) (key : Str) : Option JsVal :=
  ((fields.filter (fun f => f.1 == key)).getLast?).map (fun f => f.2)

/-- `parsed.status || 'Completed'`, reached when `parsed.message` is absent or
falsy. -/
def statusFallback (fields : List (Str × JsVal)) : Str :=
  match objGet fields "status".data with
  | some st => if truthy st then jsToDisplay st else "Completed".data
  | none => "Completed".data

/-- The body of the `try` around `JSON.parse(jsonStr)` in `sanitizeContent`:
`return parsed.message || parsed.status || 'Completed'`. A parse failure is
caught ('Tool completed'); so is the `TypeError` raised by property access
when the parse produced `null`. On a non-object the property reads give
`undefined`, so the result is 'Completed'. -/
def wrappedExtract : Option JsVal → Str
  | none => "Tool completed".data
  | some JsVal.jnull => "Tool completed".data
  | some (JsVal.jobj fields) =>
    match objGet fields "message".data with
    | some m => if truthy m then jsToDisplay m else statusFallback fields
    | none => statusFallback fields
  | some _ => "Completed".data

/-- The literal scanned for by the regexp `/ToolResult\(result='([^']+)'/`. -/
def trLit : Str := "ToolResult(result='".data

/-- Try the wrapped-result regexp at the head of `s`: the literal, then a
nonempty run of non-quote characters, then a closing single quote. The
mandatory closing quote leaves the greedy `[^']+` no successful backtrack, so
the match at a position is unique when it exists. -/
def toolResultAt (s : Str) : Option Str :=
  if leadsWith trLit s then
    let rest := s.drop trLit.length
    let grp := rest.takeWhile (fun c => c ≠ '\'')
    if grp.isEmpty then none
    else if (rest.dropWhile (fun c => c ≠ '\'')).isEmpty then none
    else some grp
  else none

/-- JS `String.match` with the wrapped-result regexp: try every position left
to right, return capture group 1 of the first match. -/
def toolResultMatch : Str → Option Str
  | [] => none
  | c :: cs =>
    match toolResultAt (c :: cs) with
    | some g => some g
    | none => toolResultMatch cs

/-- One of the quote characters of the class `['"]`. -/
def isQuote (c : Char) : Bool := c = '\'' || c = '"'

/-- Try the error-envelope regexp `/['"']message['"]:\s*['"']([^'"]+)['"']/`
at the head of `s` (the duplicated quote in the class is redundant). -/
def msgAt (s : Str) : Option Str :=
  match s with
  | [] => none
  | q1 :: r1 =>
    if isQuote q1 ∧ leadsWith "message".data r1 then
      match r1.drop 7 with
      | [] => none
      | q2 :: r2 =>
        if isQuote q2 then
          match r2 with
          | ':' :: r3 =>
            match r3.dropWhile jsWs with
            | [] => none
            | q3 :: r4 =>
              if isQuote q3 then
                let grp := r4.takeWhile (fun c => !(isQuote c))
                if grp.isEmpty then none
                else if (r4.dropWhile (fun c => !(isQuote c))).isEmpty then none
                else some grp
              else none
          | _ => none
        else none
    else none

/-- JS `String.match` with the error-envelope regexp, leftmost match. -/
def msgMatch : Str → Option Str
  | [] => none
  | c :: cs =>
    match msgAt (c :: cs) with
    | some g => some g
    | none => msgMatch cs

/-- `sanitizeContent` of `AgentActivityPanel.tsx` (lines 198-241), translated
clause by clause: drop internal-representation markers, unwrap `ToolResult`
strings via the quote-normalising `JSON.parse` attempt, extract `message` from
verbose error envelopes, otherwise collapse escapes and whitespace and cap the
length at 200. -/
def sanitizeContent (content : Str) : Str :=
  if content.isEmpty then []
  else if jsIncludes content "<crewai.".data || jsIncludes content "object at 0x".data ||
      jsIncludes content "AgentFinish(".data || jsIncludes content "AgentAction(".data then []
  else if jsIncludes content "ToolResult(result=".data ||
      jsIncludes content "ToolResult(".data then
    match toolResultMatch content with
    | some grp =>
      let jsonStr := replaceChar '\'' "\"".data (replacePair '\\' '\'' "'".data grp)
      wrappedExtract (jsonParse jsonStr)
    | none => "Tool completed".data
  else if jsIncludes content "\x7b'status': 'error'".data ||
      jsIncludes content "\x7b\"status\": \"error\"".data then
    match msgMatch content with
    | some grp => grp.take 100
    | none => "Processing error occurred".data
  else
    (trimL (collapseWs (replacePair '\\' '\\' [] (replacePair '\\' 'n' " ".data content)))).take 200

example : sanitizeContent "<crewai.Agent".data = [] := rfl
example : sanitizeContent "ToolResult(result='\x7b\"status\": \"error\", \"message\": \"boom\"\x7d')".data
    = "boom".data := rfl
example : sanitizeContent "object at\\n0x7f".data = "object at 0x7f".data := rfl
example : sanitizeContent "\x7b'status': 'error', 'message': 'oops, broken'\x7d".data
    = "oops, broken".data := rfl
example : sanitizeContent "ToolResult(result='not json')".data = "Tool completed".data := rfl
example : sanitizeContent "  hello\\nworld  ".data = "hello world".data := rfl

/-- One day of the progressive meal-plan preview (`MealPlanDayPreview` in
`types.ts`); the meal slots are optional strings. -/
structure DayPreview where
  date : Str
  breakfast : Option Str
  lunch : Option Str
  dinner : Option Str
deriving DecidableEq, Repr

/-- The discriminated activity events of `types.ts` (`AgentActivityEvent`),
split by `type` tag with exactly the fields each arm of `processStream`
reads; every payload field is optional on the wire. -/
inductive ActivityEvent where
  | agent_thinking (content : Option Str)
  | tool_start (tool : Option Str) (input_summary : Option Str)
  | tool_result (tool : Option Str) (summary : Option Str)
  | task_complete (task : Option Str) (summary : Option Str)
  | preview_update (preview : Option (List DayPreview))
  | complete (meal_plan : Option Str)
  | error (content : Option Str)
  | done
deriving DecidableEq, Repr

/-- The `type` tags of `AgentActivityEventType`, used as `ActivityLogItem.type`. -/
inductive LogKind where
  | agent_thinking | tool_start | tool_result | task_complete
  | preview_update | complete | error | done
deriving DecidableEq, Repr

/-- `ActivityLogItem` without its nondeterministic `id` and `timestamp`
(produced from `Date.now()` and `Math.random()`) and without the unused
`isActive` flag; the claims concern only kind and content. -/
structure LogItem where
  kind : LogKind
  content : Str
deriving DecidableEq, Repr

/-- The consumer-owned UI state of `AgentActivityPanel`: the eight `useState`
cells that `processStream` mutates. -/
structure ProgressState where
  activityLog : List LogItem
  currentActivity : Str
  currentTool : Option Str
  progress : Nat
  isComplete : Bool
  error : Option Str
  preview : List DayPreview
  mealPlanResult : Option Str
deriving DecidableEq, Repr

/-- The reset performed when the panel opens with a new stream. -/
def initState : ProgressState :=
  { activityLog := []
    currentActivity := "Initializing...".data
    currentTool := none
    progress := 0
    isComplete := false
    error := none
    preview := []
    mealPlanResult := none }

/-- JS `x || d` on an optional string field: `undefined` and `''` fall back. -/
def orDefault (v : Option Str) (d : Str) : Str :=
  match v with
  | some s => if s.isEmpty then d else s
  | none => d

/-- JS template interpolation of a possibly-absent string
(an `undefined` field renders as the text `undefined`). -/
def jsInterp (v : Option Str) : Str :=
  match v with
  | some s => s
  | none => "undefined".data

/-- `addToLog` of `AgentActivityPanel.tsx` (lines 243-257): re-sanitizes the
composed content and appends, unless the result is empty or shorter than 3
characters. -/
def addToLog (st : ProgressState) (kind : LogKind) (content : Str) : ProgressState :=
  let sanitized := sanitizeContent content
  if sanitized.isEmpty || sanitized.length < 3 then st
  else { st with activityLog := st.activityLog ++ [{ kind := kind, content := sanitized }] }

/-- `incrementProgress` (lines 259-261): bump capped at 95. -/
def incrementProgress (st : ProgressState) (amount : Nat) : ProgressState :=
  { st with progress := min (st.progress + amount) 95 }

/-- The panel inputs the `complete` arm reads: `planConfig.days`, and the
dates `new Date()` offset by `i` days (modelled as an abstract date function,
since the clock is outside the program text). -/
structure PanelConfig where
  days : Nat
  mkDate : Nat → Str

/-- The preview rows built by the `complete` arm when a meal plan is present:
every day of the configured span marked `Planned`. -/
def completedDays (cfg : PanelConfig) : List DayPreview :=
  (List.range cfg.days).map (fun i =>
    { date := cfg.mkDate i
      breakfast := some "Planned".data
      lunch := some "Planned".data
      dinner := some "Planned".data })

/-- One iteration of the `switch` in `processStream` (lines 69-174) as a pure
fold step on the state; the `onComplete` callback is an external effect with
no bearing on the state. -/
def processEvent (cfg : PanelConfig) (st : ProgressState) (e : ActivityEvent) : ProgressState :=
  match e with
  | ActivityEvent.agent_thinking content? =>
    let content := sanitizeContent (orDefault content? "Thinking...".data)
    if content.isEmpty then st
    else
      let st := { st with currentActivity := content, currentTool := none }
      incrementProgress (addToLog st LogKind.agent_thinking content) 5
  | ActivityEvent.tool_start tool? input? =>
    let toolName := orDefault tool? "Unknown Tool".data
    let inputSummary := sanitizeContent (orDefault input? [])
    let st := { st with
      currentTool := some toolName
      currentActivity :=
        if inputSummary.isEmpty then "Using ".data ++ toolName ++ "...".data
        else inputSummary }
    let st := addToLog st LogKind.tool_start
      ("Using ".data ++ toolName ++
        (if inputSummary.isEmpty then [] else ": ".data ++ inputSummary))
    incrementProgress st 10
  | ActivityEvent.tool_result tool? summary? =>
    let summary := sanitizeContent (orDefault summary? "Completed".data)
    let st :=
      if summary.isEmpty then st
      else addToLog st LogKind.tool_result
        ("✓ ".data ++ orDefault tool? "Tool".data ++ ": ".data ++ summary)
    incrementProgress st 10
  | ActivityEvent.task_complete task? summary? =>
    let st := { st with currentTool := none }
    let taskName := sanitizeContent (orDefault task? "Task".data)
    let summary := sanitizeContent (orDefault summary? "Completed".data)
    let st :=
      if taskName.isEmpty && summary.isEmpty then st
      else
        let st := { st with currentActivity :=
          "Completed: ".data ++ (if taskName.isEmpty then "Task".data else taskName) }
        addToLog st LogKind.task_complete ("✓ ".data ++ taskName ++ ": ".data ++ summary)
    incrementProgress st 15
  | ActivityEvent.preview_update preview? =>
    match preview? with
    | some days => { st with preview := days }
    | none => st
  | ActivityEvent.complete meal_plan? =>
    let st := { st with
      progress := 100
      isComplete := true
      currentActivity := "Meal plan created successfully!".data
      currentTool := none }
    let st := addToLog st LogKind.complete "✓ Meal plan created successfully!".data
    match meal_plan? with
    | some mp =>
      if mp.isEmpty then st
      else { st with mealPlanResult := some mp, preview := completedDays cfg }
    | none => st
  | ActivityEvent.error content? =>
    let st := { st with error := some (orDefault content? "An error occurred".data) }
    addToLog st LogKind.error ("⚠ Error: ".data ++ jsInterp content?)
  | ActivityEvent.done =>
    if !st.isComplete then { st with progress := 100 } else st

/-- Folding a whole event sequence into the panel state, starting from any
state (the panel itself starts from `initState`). -/
def foldEvents (cfg : PanelConfig) (st : ProgressState) (evs : List ActivityEvent) : ProgressState :=
  evs.foldl (processEvent cfg) st

/-- A concrete panel configuration for closed evaluations. -/
def cfg0 : PanelConfig := { days := 7, mkDate := fun _ => [] }

example : (foldEvents cfg0 initState
    [ActivityEvent.agent_thinking (some "Starting meal plan...".data),
     ActivityEvent.tool_start (some "CreateMealPlanTool".data) (some "Creating plan".data),
     ActivityEvent.tool_result (some "CreateMealPlanTool".data) (some "Meal plan created".data),
     ActivityEvent.complete (some "7-day plan text".data),
     ActivityEvent.done]).progress = 100 := by decide
example : (foldEvents cfg0 initState
    [ActivityEvent.error (some "upstream failure".data)]).error
    = some "upstream failure".data := by decide

/-- JS `buffer.split('\n')`: the list of segments between newlines; never
empty, and the last segment is the unterminated tail. -/
def jsSplitNl : Str → List Str
  | [] => [[]]
  | c :: cs =>
    if c = '\n' then [] :: jsSplitNl cs
    else
      match jsSplitNl cs with
      | [] => [[c]]
      | l :: ls => (c :: l) :: ls

/-- The complete lines and the pending tail of a byte string: `.1` is
`lines` after `buffer = lines.pop() || ''`, `.2` is the new buffer. -/
def splitLines : Str → List Str × Str
  | [] => ([], [])
  | c :: cs =>
    let r := splitLines cs
    if c = '\n' then ([] :: r.1, r.2)
    else
      match r.1 with
      | [] => ([], c :: r.2)
      | l :: ls => ((c :: l) :: ls, r.2)

/-- Decode one complete line (`streamCreate`, lines 216-223): lines with the
`data: ` framing have their payload parsed as JSON, yielding the event;
parse failures and unframed lines are skipped. -/
def decodeLine (line : Str) : Option JsVal :=
  if leadsWith "data: ".data line then jsonParse (line.drop 6) else none

/-- One `reader.read()` iteration of `streamCreate` (lines 207-225): append
the chunk to the pending buffer, split on newlines, keep the unterminated
tail as the new buffer, and yield the decodable complete lines in order.
Chunks are character strings: `TextDecoder` with the stream flag buffers
incomplete UTF-8 sequences across reads, so byte-offset fragmentation is
equivalent to character-offset fragmentation after decoding. -/
def consumeChunk (st : Str × List JsVal) (chunk : Str) : Str × List JsVal :=
  let lines := jsSplitNl (st.1 ++ chunk)
  ((lines.getLast?).getD [], st.2 ++ (lines.dropLast).filterMap decodeLine)

/-- The whole consumption loop over a chunked byte stream, from an empty
buffer; when the stream ends, whatever is still buffered is discarded. -/
def consume (chunks : List Str) : List JsVal :=
  (chunks.foldl consumeChunk ([], [])).2

/-- Wire framing of one record: `"data: " + json + "\n"`. -/
def wire (payload : Str) : Str := "data: ".data ++ payload ++ ['\n']

/-- Concatenation of a list of byte strings. -/
def joinL (chunks : List Str) : Str := chunks.foldr (· ++ ·) []

/-- A finite event list serialized as consecutive wire records. -/
def serializeAll (payloads : List Str) : Str := joinL (payloads.map wire)

example : consume ["da".data, "ta: true\nda".data, "ta: null\n".data]
    = [JsVal.jbool true, JsVal.jnull] := rfl
example : consume [serializeAll ["true".data, "\x7b".data, "null".data]]
    = [JsVal.jbool true, JsVal.jnull] := rfl
example : consume ["data: true\ndata: fal".data] = [JsVal.jbool true] := rfl

theorem jsSplitNl_eq (s : Str) :
    jsSplitNl s = (splitLines s).1 ++ [(splitLines s).2] := by
  induction s with
  | nil => rfl
  | cons c cs ih =>
    by_cases h : c = '\n'
    · simp [jsSplitNl, splitLines, h, ih]
    · cases h1 : (splitLines cs).1 with
      | nil =>
        rw [h1] at ih
        simp [jsSplitNl, splitLines, h, ih, h1]
      | cons l ls =>
        rw [h1] at ih
        simp [jsSplitNl, splitLines, h, ih, h1]

theorem splitLines_append (a b : Str) :
    splitLines (a ++ b) =
      ((splitLines a).1 ++ (splitLines ((splitLines a).2 ++ b)).1,
       (splitLines ((splitLines a).2 ++ b)).2) := by
  induction a with
  | nil => simp [splitLines]
  | cons c a ih =>
    by_cases h : c = '\n'
    · simp [splitLines, h, ih]
    · cases h1 : (splitLines a).1 with
      | nil =>
        cases h2 : (splitLines ((splitLines a).2 ++ b)).1 with
        | nil => simp [splitLines, h, ih, h1, h2]
        | cons l ls => simp [splitLines, h, ih, h1, h2]
      | cons l ls => simp [splitLines, h, ih, h1]

theorem consumeChunk_eq (st : Str × List JsVal) (chunk : Str) :
    consumeChunk st chunk =
      ((splitLines (st.1 ++ chunk)).2,
       st.2 ++ (splitLines (st.1 ++ chunk)).1.filterMap decodeLine) := by
  unfold consumeChunk
  rw [jsSplitNl_eq]
  simp

theorem consumeChunk_merge (st : Str × List JsVal) (a b : Str) :
    consumeChunk (consumeChunk st a) b = consumeChunk st (a ++ b) := by
  simp only [consumeChunk_eq]
  rw [← List.append_assoc, splitLines_append (st.1 ++ a) b]
  simp [List.filterMap_append]

theorem foldl_consumeChunk (chunks : List Str) :
    ∀ (st : Str × List JsVal) (c : Str),
      (c :: chunks).foldl consumeChunk st = consumeChunk st (joinL (c :: chunks)) := by
  induction chunks with
  | nil => intro st c; simp [joinL]
  | cons c2 cs ih =>
    intro st c
    have : (c :: c2 :: cs).foldl consumeChunk st = (c2 :: cs).foldl consumeChunk (consumeChunk st c) := rfl
    rw [this, ih (consumeChunk st c) c2, consumeChunk_merge]
    simp [joinL]

theorem consume_eq_whole (chunks : List Str) :
    consume chunks = consume [joinL chunks] := by
  cases chunks with
  | nil => rfl
  | cons c cs =>
    unfold consume
    rw [foldl_consumeChunk cs ([], []) c]
    simp

theorem consume_single_eq (s : Str) :
    consume [s] = (splitLines s).1.filterMap decodeLine := by
  simp [consume, consumeChunk_eq]

/-- A byte string containing no record delimiter. -/
def nlFree (s : Str) : Bool := s.all (fun c => c ≠ '\n')

theorem splitLines_nlFree (s : Str) (h : nlFree s = true) : splitLines s = ([], s) := by
  induction s with
  | nil => rfl
  | cons c cs ih =>
    simp only [nlFree, List.all_cons, Bool.and_eq_true, decide_eq_true_eq] at h
    have hcs := ih h.2
    simp [splitLines, h.1, hcs]

theorem splitLines_tail_nlFree (s : Str) : nlFree (splitLines s).2 = true := by
  induction s with
  | nil => rfl
  | cons c cs ih =>
    by_cases h : c = '\n'
    · simp [splitLines, h, ih]
    · cases h1 : (splitLines cs).1 with
      | nil =>
        have hgoal : (splitLines (c :: cs)).2 = c :: (splitLines cs).2 := by
          simp [splitLines, h, h1]
        rw [hgoal]
        simp only [nlFree, List.all_cons, Bool.and_eq_true, decide_eq_true_eq]
        exact ⟨h, ih⟩
      | cons l ls =>
        simp [splitLines, h, h1, ih]

theorem nlFree_append (a b : Str) (ha : nlFree a = true) (hb : nlFree b = true) :
    nlFree (a ++ b) = true := by
  simp only [nlFree, List.all_append, Bool.and_eq_true]
  exact ⟨ha, hb⟩

theorem leadsWith_append (p q : Str) : leadsWith p (p ++ q) = true := by
  induction p with
  | nil => rfl
  | cons c cs ih => simp [leadsWith, ih]

theorem decodeLine_wire (p : Str) :
    decodeLine ("data: ".data ++ p) = jsonParse p := by
  have hd : List.drop 6 ("data: ".data ++ p) = p := by
    have h6 : ("data: ".data).length = 6 := rfl
    rw [← h6, List.drop_left]
  simp only [decodeLine, leadsWith_append, if_true, hd]

theorem splitLines_record (s rest : Str) (h : nlFree s = true) :
    splitLines (s ++ '\n' :: rest) = (s :: (splitLines rest).1, (splitLines rest).2) := by
  induction s with
  | nil => simp [splitLines]
  | cons c cs ih =>
    simp only [nlFree, List.all_cons, Bool.and_eq_true, decide_eq_true_eq] at h
    have hcs := ih h.2
    simp [splitLines, h.1, hcs]

theorem wire_nlFree_lines (ps : List Str) (h : ∀ p ∈ ps, nlFree p = true) :
    splitLines (serializeAll ps) = (ps.map (fun p => "data: ".data ++ p), []) := by
  induction ps with
  | nil => rfl
  | cons p ps ih =>
    have hp : nlFree p = true := h p (by simp)
    have hps := ih (fun q hq => h q (by simp [hq]))
    have hwire : nlFree ("data: ".data ++ p) = true := nlFree_append _ _ (by decide) hp
    have : serializeAll (p :: ps) = ("data: ".data ++ p) ++ '\n' :: serializeAll ps := by
      simp [serializeAll, joinL, wire]
    rw [this, splitLines_record _ _ hwire, hps]
    simp

theorem consume_records (ps : List Str) (h : ∀ p ∈ ps, nlFree p = true) :
    consume [serializeAll ps] = ps.filterMap jsonParse := by
  rw [consume_single_eq, wire_nlFree_lines ps h, List.filterMap_map]
  have hfun : (decodeLine ∘ fun p => "data: ".data ++ p) = jsonParse := by
    funext p
    exact decodeLine_wire p
  rw [hfun]

/-- Claim C2: for every finite list of events serialized as wire records
(`data: ` prefix, JSON payload, newline-delimited) and for every way of
splitting the resulting byte stream into chunks at arbitrary offsets, the
stream consumer yields exactly the same ordered list of decoded events as
when the whole stream is delivered in one chunk. -/
theorem claim_c2_fragmentation_independence (payloads chunks : List Str)
    (h : joinL chunks = serializeAll payloads) :
    consume chunks = consume [serializeAll payloads] := by
  rw [← h]
  exact consume_eq_whole chunks

theorem claim_c2_witness :
    joinL ["data: tr".data, "ue\nda".data, "ta: null\n".data]
      = serializeAll ["true".data, "null".data] ∧
    consume ["data: tr".data, "ue\nda".data, "ta: null\n".data]
      = consume [serializeAll ["true".data, "null".data]] :=
  ⟨rfl, claim_c2_fragmentation_independence ["true".data, "null".data]
    ["data: tr".data, "ue\nda".data, "ta: null\n".data] rfl⟩

/-- Claim C8: if one record's payload does not parse as JSON, the consumer
skips exactly that record and continues: every well-formed record before and
after it is still yielded in its original order, and the stream is not
aborted (the consumer is a total function). -/
theorem claim_c8_malformed_skipped (pre post : List Str) (bad : Str)
    (hpre : ∀ p ∈ pre, nlFree p = true) (hbad : nlFree bad = true)
    (hpost : ∀ p ∈ post, nlFree p = true) (hmal : jsonParse bad = none) :
    consume [serializeAll (pre ++ bad :: post)] =
      pre.filterMap jsonParse ++ post.filterMap jsonParse := by
  have hall : ∀ p ∈ pre ++ bad :: post, nlFree p = true := by
    intro p hp
    rcases List.mem_append.mp hp with h1 | h2
    · exact hpre p h1
    · rcases List.mem_cons.mp h2 with h3 | h4
      · rw [h3]; exact hbad
      · exact hpost p h4
  rw [consume_records _ hall]
  simp [List.filterMap_append, List.filterMap_cons, hmal]

theorem claim_c8_witness :
    jsonParse "\x7b".data = none ∧
    consume [serializeAll ["true".data, "\x7b".data, "null".data]] =
      ["true".data].filterMap jsonParse ++ ["null".data].filterMap jsonParse :=
  ⟨rfl, claim_c8_malformed_skipped ["true".data] ["null".data] "\x7b".data
    (by decide) (by decide) (by decide) rfl⟩

/-- Claim C10: if the byte stream ends while the pending buffer still holds
an unterminated partial record (no trailing newline), that partial record is
discarded and never yielded: the consumer ends normally with exactly the
events of the terminated part of the stream. -/
theorem claim_c10_partial_discarded (s p : Str) (h : nlFree p = true) :
    consume [s ++ p] = consume [s] := by
  rw [consume_single_eq, consume_single_eq, splitLines_append s p]
  have ht : nlFree ((splitLines s).2 ++ p) = true :=
    nlFree_append _ _ (splitLines_tail_nlFree s) h
  rw [splitLines_nlFree _ ht]
  simp

theorem claim_c10_witness :
    nlFree "data: tru".data = true ∧
    consume ["data: null\n".data ++ "data: tru".data] = consume ["data: null\n".data] :=
  ⟨by decide, claim_c10_partial_discarded "data: null\n".data "data: tru".data (by decide)⟩

/-- Events whose arm can write `100` into `percent`: `complete` and `done`. -/
def isSnapEvent : ActivityEvent → Bool
  | ActivityEvent.complete _ => true
  | ActivityEvent.done => true
  | _ => false

/-- The `error` events. -/
def isErrorEvent : ActivityEvent → Bool
  | ActivityEvent.error _ => true
  | _ => false

theorem addToLog_progress (st : ProgressState) (k : LogKind) (c : Str) :
    (addToLog st k c).progress = st.progress := by
  cases h : (sanitizeContent c).isEmpty || decide ((sanitizeContent c).length < 3) <;>
    simp [addToLog, h]

theorem addToLog_error (st : ProgressState) (k : LogKind) (c : Str) :
    (addToLog st k c).error = st.error := by
  cases h : (sanitizeContent c).isEmpty || decide ((sanitizeContent c).length < 3) <;>
    simp [addToLog, h]

theorem addToLog_isComplete (st : ProgressState) (k : LogKind) (c : Str) :
    (addToLog st k c).isComplete = st.isComplete := by
  cases h : (sanitizeContent c).isEmpty || decide ((sanitizeContent c).length < 3) <;>
    simp [addToLog, h]

theorem processEvent_progress_bounds (cfg : PanelConfig) (st : ProgressState)
    (e : ActivityEvent) (hs : isSnapEvent e = false) (h : st.progress ≤ 95) :
    st.progress ≤ (processEvent cfg st e).progress ∧
      (processEvent cfg st e).progress ≤ 95 := by
  cases e with
  | agent_thinking content? =>
    simp only [processEvent]
    split
    · exact ⟨le_refl _, h⟩
    · simp only [incrementProgress, addToLog_progress]
      exact ⟨le_min (Nat.le_add_right _ _) h, min_le_right _ _⟩
  | tool_start tool? input? =>
    simp only [processEvent]
    simp only [incrementProgress, addToLog_progress]
    exact ⟨le_min (Nat.le_add_right _ _) h, min_le_right _ _⟩
  | tool_result tool? summary? =>
    simp only [processEvent]
    split <;> simp only [incrementProgress, addToLog_progress] <;>
      exact ⟨le_min (Nat.le_add_right _ _) h, min_le_right _ _⟩
  | task_complete task? summary? =>
    simp only [processEvent]
    split <;> simp only [incrementProgress, addToLog_progress] <;>
      exact ⟨le_min (Nat.le_add_right _ _) h, min_le_right _ _⟩
  | preview_update preview? =>
    simp only [processEvent]
    cases preview? <;> exact ⟨le_refl _, h⟩
  | complete mp? => simp [isSnapEvent] at hs
  | error content? =>
    simp only [processEvent]
    simp only [addToLog_progress]
    exact ⟨le_refl _, h⟩
  | done => simp [isSnapEvent] at hs

theorem foldEvents_progress_le (cfg : PanelConfig) (evs : List ActivityEvent) :
    ∀ st : ProgressState, st.progress ≤ 95 →
      (∀ e ∈ evs, isSnapEvent e = false) →
      (foldEvents cfg st evs).progress ≤ 95 := by
  induction evs with
  | nil => intro st h _; exact h
  | cons e evs ih =>
    intro st h hall
    have he : isSnapEvent e = false := hall e (by simp)
    have hb := processEvent_progress_bounds cfg st e he h
    exact ih (processEvent cfg st e) hb.2 (fun e2 h2 => hall e2 (by simp [h2]))

/-- Claim C7: for every sequence of events none of which is `complete` or
`done` (in particular for every sequence of only the non-terminal kinds
`agent_thinking`, `tool_start`, `tool_result`, `task_complete`,
`preview_update`), the folded percent never exceeds 95 and never reaches
100; contrapositively, percent can become 100 only by folding a `complete`
or a `done` event. -/
theorem claim_c7_bounded_increments (cfg : PanelConfig) (evs : List ActivityEvent)
    (h : ∀ e ∈ evs, isSnapEvent e = false) :
    (foldEvents cfg initState evs).progress ≤ 95 ∧
      (foldEvents cfg initState evs).progress < 100 := by
  have hle := foldEvents_progress_le cfg evs initState (by decide) h
  exact ⟨hle, by omega⟩

theorem claim_c7_witness :
    (∀ e ∈ [ActivityEvent.agent_thinking (some "thinking hard".data),
            ActivityEvent.tool_start (some "Tool1".data) none,
            ActivityEvent.tool_result (some "Tool1".data) (some "fine".data),
            ActivityEvent.task_complete (some "step".data) (some "ok".data),
            ActivityEvent.preview_update none], isSnapEvent e = false) ∧
    (foldEvents cfg0 initState
      [ActivityEvent.agent_thinking (some "thinking hard".data),
       ActivityEvent.tool_start (some "Tool1".data) none,
       ActivityEvent.tool_result (some "Tool1".data) (some "fine".data),
       ActivityEvent.task_complete (some "step".data) (some "ok".data),
       ActivityEvent.preview_update none]).progress ≤ 95 ∧
    (foldEvents cfg0 initState
      [ActivityEvent.agent_thinking (some "thinking hard".data),
       ActivityEvent.tool_start (some "Tool1".data) none,
       ActivityEvent.tool_result (some "Tool1".data) (some "fine".data),
       ActivityEvent.task_complete (some "step".data) (some "ok".data),
       ActivityEvent.preview_update none]).progress < 100 := by
  refine ⟨by decide, ?_, ?_⟩
  · exact (claim_c7_bounded_increments cfg0 _ (by decide)).1
  · exact (claim_c7_bounded_increments cfg0 _ (by decide)).2

theorem scanl_head (cfg : PanelConfig) (b : ProgressState) (l : List ActivityEvent) :
    (List.scanl (processEvent cfg) b l).head? = some b := by
  cases l <;> simp [List.scanl]

theorem chain_progress (cfg : PanelConfig) (evs : List ActivityEvent) :
    ∀ st : ProgressState, st.progress ≤ 95 →
      (∀ e ∈ evs, isSnapEvent e = false) →
      List.Chain' (· ≤ ·)
        ((List.scanl (processEvent cfg) st evs).map (fun q => q.progress)) := by
  induction evs with
  | nil => intro st _ _; simp [List.scanl]
  | cons e evs ih =>
    intro st h hall
    have he : isSnapEvent e = false := hall e (by simp)
    have hb := processEvent_progress_bounds cfg st e he h
    rw [List.scanl_cons, List.singleton_append, List.map_cons]
    rw [List.chain'_cons']
    constructor
    · intro q hq
      rw [List.head?_map, scanl_head] at hq
      simp at hq
      subst hq
      exact hb.1
    · exact ih (processEvent cfg st e) hb.2 (fun e2 h2 => hall e2 (by simp [h2]))

/-- Claim C3 is false on the code: folding `complete` then `agent_thinking`
(no `error` anywhere) makes percent drop from 100 to 95, because the
increment arms run unguarded after the terminal event and cap at 95. -/
theorem claim_c3_counterexample :
    ¬ List.Chain' (· ≤ ·)
      ((List.scanl (processEvent cfg0) initState
        [ActivityEvent.complete (some "plan".data),
         ActivityEvent.agent_thinking (some "hello".data)]).map (fun q => q.progress)) := by
  have hval : (List.scanl (processEvent cfg0) initState
      [ActivityEvent.complete (some "plan".data),
       ActivityEvent.agent_thinking (some "hello".data)]).map (fun q => q.progress)
      = [0, 100, 95] := by decide
  rw [hval]
  simp [List.chain'_cons]

/-- Claim C3 (amended): for every sequence of events containing no `error`
and also no `complete` or `done` — the two arms that write 100, after which
a capped increment would decrease percent — the folded percent is
non-decreasing from each folded event to the next. -/
theorem claim_c3_amended (cfg : PanelConfig) (evs : List ActivityEvent)
    (h : ∀ e ∈ evs, isSnapEvent e = false ∧ isErrorEvent e = false) :
    List.Chain' (· ≤ ·)
      ((List.scanl (processEvent cfg) initState evs).map (fun q => q.progress)) :=
  chain_progress cfg evs initState (by decide) (fun e he => (h e he).1)

theorem claim_c3_amended_witness :
    (∀ e ∈ [ActivityEvent.agent_thinking (some "planning meals".data),
            ActivityEvent.tool_result none (some "done fine".data)],
        isSnapEvent e = false ∧ isErrorEvent e = false) ∧
    List.Chain' (· ≤ ·)
      ((List.scanl (processEvent cfg0) initState
        [ActivityEvent.agent_thinking (some "planning meals".data),
         ActivityEvent.tool_result none (some "done fine".data)]).map (fun q => q.progress)) :=
  ⟨by decide, claim_c3_amended cfg0 _ (by decide)⟩

theorem processEvent_error_mono (cfg : PanelConfig) (st : ProgressState)
    (e : ActivityEvent) (herr : st.error.isSome = true) :
    (processEvent cfg st e).error.isSome = true := by
  cases e <;> simp only [processEvent] <;> (try split) <;> (try split) <;>
    simp [incrementProgress, addToLog_error, herr]

theorem processEvent_isComplete_mono (cfg : PanelConfig) (st : ProgressState)
    (e : ActivityEvent) (hc : st.isComplete = true) :
    (processEvent cfg st e).isComplete = true := by
  cases e <;> simp only [processEvent] <;> (try split) <;> (try split) <;>
    simp [incrementProgress, addToLog_isComplete, hc]

/-- Claim C1 is false on the code: `processStream` has no terminal-state
guard, so an `agent_thinking` folded after an `error` still appends to the
activity log, bumps percent and rewrites the current activity. -/
theorem claim_c1_counterexample :
    ((foldEvents cfg0 initState
      [ActivityEvent.error (some "boom".data),
       ActivityEvent.agent_thinking (some "hello world".data)]).activityLog).length = 2 ∧
    ((foldEvents cfg0 initState
      [ActivityEvent.error (some "boom".data)]).activityLog).length = 1 ∧
    (foldEvents cfg0 initState
      [ActivityEvent.error (some "boom".data),
       ActivityEvent.agent_thinking (some "hello world".data)]).progress = 5 ∧
    (foldEvents cfg0 initState
      [ActivityEvent.error (some "boom".data)]).progress = 0 := by
  decide

/-- Claim C1 (amended): the reducer does not freeze on a terminal event —
events folded after `complete` or `error` are still processed and can grow
the log and change percent, currentActivity and currentTool — but the
terminal outcome itself is sticky: once `error` is set it is never cleared
by any later event, and once `isComplete` is set it is never unset. -/
theorem claim_c1_amended (cfg : PanelConfig) (st : ProgressState) (e : ActivityEvent) :
    (st.error.isSome = true → (processEvent cfg st e).error.isSome = true) ∧
      (st.isComplete = true → (processEvent cfg st e).isComplete = true) :=
  ⟨fun herr => processEvent_error_mono cfg st e herr,
   fun hc => processEvent_isComplete_mono cfg st e hc⟩

theorem claim_c1_amended_witness :
    ((foldEvents cfg0 initState
        [ActivityEvent.complete (some "plan".data),
         ActivityEvent.error (some "boom".data)]).error.isSome = true ∧
      (foldEvents cfg0 initState
        [ActivityEvent.complete (some "plan".data),
         ActivityEvent.error (some "boom".data)]).isComplete = true) ∧
    ((processEvent cfg0
        (foldEvents cfg0 initState
          [ActivityEvent.complete (some "plan".data),
           ActivityEvent.error (some "boom".data)])
        (ActivityEvent.agent_thinking (some "hello world".data))).error.isSome = true ∧
      (processEvent cfg0
        (foldEvents cfg0 initState
          [ActivityEvent.complete (some "plan".data),
           ActivityEvent.error (some "boom".data)])
        (ActivityEvent.agent_thinking (some "hello world".data))).isComplete = true) :=
  ⟨⟨by decide, by decide⟩,
   (claim_c1_amended cfg0
      (foldEvents cfg0 initState
        [ActivityEvent.complete (some "plan".data),
         ActivityEvent.error (some "boom".data)])
      (ActivityEvent.agent_thinking (some "hello world".data))).1 (by decide),
   (claim_c1_amended cfg0
      (foldEvents cfg0 initState
        [ActivityEvent.complete (some "plan".data),
         ActivityEvent.error (some "boom".data)])
      (ActivityEvent.agent_thinking (some "hello world".data))).2 (by decide)⟩

/-- Claim C5 is false on the code: the `done` arm guards only on
`isComplete`, so after an `error` (which leaves `isComplete` false) a
`done` still forces percent to 100 instead of leaving it as it was. -/
theorem claim_c5_counterexample :
    (foldEvents cfg0 initState
      [ActivityEvent.error (some "boom".data), ActivityEvent.done]).progress = 100 ∧
    (foldEvents cfg0 initState
      [ActivityEvent.error (some "boom".data)]).progress = 0 := by
  decide

/-- Claim C5 (amended): folding `done` sets percent to 100 exactly when
`isComplete` is false — including after an `error` — and is a no-op when
`isComplete` is true; the guard tests only `isComplete`, never the error
field. -/
theorem claim_c5_amended (cfg : PanelConfig) (st : ProgressState) :
    processEvent cfg st ActivityEvent.done =
      if st.isComplete then st else { st with progress := 100 } := by
  simp only [processEvent]
  cases h : st.isComplete <;> simp [h]

/-- The wrapped-result string of spec Scenario B: a `ToolResult` wrapper
whose payload encodes status error with message boom. -/
def wrappedBoom : Str :=
  "ToolResult(result='\x7b\"status\": \"error\", \"message\": \"boom\"\x7d')".data

/-- Claim C6 is false on the code as stated: the folded log entry's content
is the tool-prefixed line, not the bare extracted message. -/
theorem claim_c6_counterexample :
    (processEvent cfg0 initState
      (ActivityEvent.tool_result none (some wrappedBoom))).activityLog
      = [{ kind := LogKind.tool_result, content := "✓ Tool: boom".data }] ∧
    ¬ ("✓ Tool: boom".data : Str) = "boom".data := by
  decide

/-- Claim C6 (amended): the sanitizer reduces the wrapper to exactly `boom`,
and the appended log entry's content is `✓ <tool>: boom`, embedding the
extracted message rather than the raw wrapper text. -/
theorem claim_c6_amended :
    sanitizeContent wrappedBoom = "boom".data ∧
    (processEvent cfg0 initState
      (ActivityEvent.tool_result (some "CreateMealPlanTool".data)
        (some wrappedBoom))).activityLog
      = [{ kind := LogKind.tool_result,
           content := "✓ CreateMealPlanTool: boom".data }] := by
  decide

theorem leadsWith_of_append (p q s : Str) (h : leadsWith (p ++ q) s = true) :
    leadsWith p s = true := by
  induction p generalizing s with
  | nil => rfl
  | cons c cs ih =>
    cases s with
    | nil => simp [leadsWith] at h
    | cons c2 s2 =>
      simp only [List.cons_append, leadsWith, Bool.and_eq_true] at h ⊢
      exact ⟨h.1, ih s2 h.2⟩

theorem jsIncludes_of_append (s p q : Str) (h : jsIncludes s (p ++ q) = true) :
    jsIncludes s p = true := by
  induction s with
  | nil =>
    simp only [jsIncludes, Bool.or_false] at h ⊢
    exact leadsWith_of_append p q [] h
  | cons c tl ih =>
    simp only [jsIncludes, Bool.or_eq_true] at h ⊢
    rcases h with h | h
    · exact Or.inl (leadsWith_of_append p q _ h)
    · exact Or.inr (ih h)

/-- Claim C4 is false on the code: the escape-collapsing last branch can
assemble an internal-representation marker that the input did not contain —
the output for `object at\n0x7f` (literal backslash) is nonempty and
contains `object at 0x`. -/
theorem claim_c4_counterexample :
    sanitizeContent "object at\\n0x7f".data = "object at 0x7f".data ∧
    jsIncludes (sanitizeContent "object at\\n0x7f".data) "object at 0x".data = true ∧
    ¬ sanitizeContent "object at\\n0x7f".data = [] := by
  decide

/-- Claim C4 (amended): the sanitizer is a total function (by construction);
whenever the input does not contain `ToolResult(`, its result is at most 200
characters long. The unamended claim fails twice: the wrapped-result branch
returns the extracted payload field unsliced, so no global 200-character
bound holds; and the result can contain internal-representation markers
formed by escape collapsing (see the counterexample). -/
theorem claim_c4_amended (content : Str)
    (h : jsIncludes content "ToolResult(".data = false) :
    (sanitizeContent content).length ≤ 200 := by
  have h2 : jsIncludes content "ToolResult(result=".data = false := by
    cases h3 : jsIncludes content "ToolResult(result=".data
    · rfl
    · have heq : "ToolResult(result=".data = "ToolResult(".data ++ "result=".data := by decide
      rw [heq] at h3
      rw [jsIncludes_of_append content _ _ h3] at h
      exact absurd h (by simp)
  unfold sanitizeContent
  split
  · simp
  · split
    · simp
    · split
      · simp_all
      · split
        · split
          · exact le_trans (List.length_take_le _ _) (by omega)
          · decide
        · exact List.length_take_le _ _

theorem claim_c4_amended_witness :
    jsIncludes "hello there".data "ToolResult(".data = false ∧
    (sanitizeContent "hello there".data).length ≤ 200 :=
  ⟨by decide, claim_c4_amended "hello there".data (by decide)⟩

/-- Claim C9: each internal object-representation marker of the first
sanitizer rule sanitizes to the empty string, and `addToLog` appends no log
entry when the sanitized content is empty or shorter than 3 characters. -/
theorem claim_c9_markers_and_short_drop (st : ProgressState) (k : LogKind) (c : Str)
    (h : sanitizeContent c = [] ∨ (sanitizeContent c).length < 3) :
    (sanitizeContent "<crewai.".data = [] ∧ sanitizeContent "object at 0x".data = [] ∧
     sanitizeContent "AgentFinish(".data = [] ∧ sanitizeContent "AgentAction(".data = []) ∧
    addToLog st k c = st := by
  refine ⟨by decide, ?_⟩
  have hlt : (sanitizeContent c).length < 3 := by
    rcases h with h | h
    · simp [h]
    · exact h
  simp [addToLog, hlt]

theorem claim_c9_witness :
    (sanitizeContent "ab".data = [] ∨ (sanitizeContent "ab".data).length < 3) ∧
    ((sanitizeContent "<crewai.".data = [] ∧ sanitizeContent "object at 0x".data = [] ∧
      sanitizeContent "AgentFinish(".data = [] ∧ sanitizeContent "AgentAction(".data = []) ∧
     addToLog initState LogKind.agent_thinking "ab".data = initState) :=
  ⟨Or.inr (by decide),
   claim_c9_markers_and_short_drop initState LogKind.agent_thinking "ab".data
     (Or.inr (by decide))⟩
